import Mathlib

/-!
Shallow embedding of the `csd322-networking-project` repository: a coordinator
that hands out Shakespeare-play analysis jobs to volunteers over a small
line-oriented TCP protocol (`src/messages.py`, `src/coordinator.py`,
`src/volunteer.py`).

Python strings are modelled as Lean `String` (a list of characters); the
text-mode socket stream consumed by `readline()` is modelled as a
`List String` of lines.  Fallible Python code (parsers raising `ValueError`,
`set.remove` raising `KeyError`) is modelled with `Option` / `Except`.
-/

/-! ## Python string primitives

The parsers in `src/messages.py` use `str.split()` (split on runs of
whitespace, dropping empty pieces), `str.startswith`, and `int(...)`.
These are modelled here at the character-list level so that their behaviour
is provable by list induction.
-/

/-- Accumulator-style worker for `pysplit`.  The first argument is the
characters of the token currently being read, in reverse order. -/
def pysplitAux : List Char → List Char → List (List Char)
  | acc, [] => if acc = [] then [] else [acc.reverse]
  | acc, c :: rest =>
    if c.isWhitespace then
      if acc = [] then pysplitAux [] rest else acc.reverse :: pysplitAux [] rest
    else pysplitAux (c :: acc) rest

/-- Python `str.split()` with no separator: split on runs of whitespace and
drop the empty pieces. -/
def pysplit (s : String) : List String :=
  (pysplitAux [] s.data).map String.mk

/-- Python `str.startswith(pre)`. -/
def pyStartsWith (s pre : String) : Bool :=
  pre.data.isPrefixOf s.data

/-- Numeric value of a digit string, most significant digit first. -/
def digitsVal (cs : List Char) : Nat :=
  cs.foldl (fun a c => 10 * a + (c.toNat - 48)) 0

/-- Parse a non-empty all-digit character list as a natural number. -/
def digitsVal? (cs : List Char) : Option Nat :=
  if cs ≠ [] ∧ cs.all Char.isDigit then some (digitsVal cs) else none

/-- Python `int(token)` on a whitespace-free token: an optional sign followed
by at least one decimal digit.  (Python's `int` additionally strips
surrounding whitespace — impossible in a `split()` token — and allows
underscore digit separators, which no serialized message ever contains.) -/
def pyInt? (s : String) : Option Int :=
  match s.data with
  | [] => none
  | c :: rest =>
    if c = '+' then (digitsVal? rest).map Int.ofNat
    else if c = '-' then (digitsVal? rest).map fun n => -(n : Int)
    else (digitsVal? (c :: rest)).map Int.ofNat

/-! ## The text-mode line stream

`socket.makefile('r')` opens the byte stream in text mode with universal
newlines: `"\r\n"` (and a lone `"\r"`) are translated to `"\n"`, and
`readline()` then returns chunks ending in `"\n"` (the final chunk may lack
one; at end of file it returns `""`). -/

/-- Universal-newline translation performed by Python's text mode. -/
def normalizeNewlines : List Char → List Char
  | [] => []
  | [c] => if c = '\r' then ['\n'] else [c]
  | c :: c2 :: rest =>
    if c = '\r' then
      if c2 = '\n' then '\n' :: normalizeNewlines rest
      else '\n' :: normalizeNewlines (c2 :: rest)
    else c :: normalizeNewlines (c2 :: rest)

/-- Split a normalized character stream into `readline()` chunks, each
retaining its terminating `'\n'`. -/
def splitLinesAux : List Char → List Char → List (List Char)
  | acc, [] => if acc = [] then [] else [acc.reverse]
  | acc, c :: rest =>
    if c = '\n' then (acc.reverse ++ ['\n']) :: splitLinesAux [] rest
    else splitLinesAux (c :: acc) rest

/-- The sequence of lines `readline()` yields when the wire bytes `s` are read
through a text-mode file object. -/
def toLines (s : String) : List String :=
  (splitLinesAux [] (normalizeNewlines s.data)).map String.mk

/-- One `readline()` call on the remaining stream: the next line, or `""` at
end of file. -/
def readline : List String → String × List String
  | [] => ("", [])
  | l :: ls => (l, ls)

/-! ## Messages (`src/messages.py`) -/

/-- Line terminator (`ENDL` in `src/messages.py`). -/
def ENDL : String := "\r\n"

/-- The five message variants of the application protocol. -/
inductive Message where
  | httpGetRequest (host path : String)
  | getWorkRequest
  | getWorkResponse (host path : String)
  | workCompleteRequest (path : String) (word_counts : List (String × Int))
  | workCompleteResponse
  deriving DecidableEq

/-- Python dict assignment `d[k] = v`: overwrite the value at an existing key
in place, otherwise append the new binding. -/
def dictInsert (d : List (String × Int)) (k : String) (v : Int) :
    List (String × Int) :=
  match d with
  | [] => [(k, v)]
  | (k', v') :: rest =>
    if k' = k then (k', v) :: rest else (k', v') :: dictInsert rest k v

/-- Python `d.get(k, 0)`. -/
def dictGet (d : List (String × Int)) (k : String) : Int :=
  match d with
  | [] => 0
  | (k', v) :: rest => if k' = k then v else dictGet rest k

/-- Python `"".join(...)` of a list of string pieces: their concatenation in
order. -/
def concatLines : List String → String
  | [] => ""
  | s :: rest => s ++ concatLines rest

/-- `serialize` of each message class in `src/messages.py`. -/
def Message.serialize : Message → String
  | .httpGetRequest host path =>
    "GET " ++ path ++ " HTTP/1.1" ++ ENDL ++ "Host: " ++ host ++ ENDL ++ ENDL
  | .getWorkRequest => "ReqW" ++ ENDL ++ ENDL
  | .getWorkResponse host path =>
    "AsgW" ++ ENDL ++ "Host: " ++ host ++ ENDL ++ "Path: " ++ path ++ ENDL ++ ENDL
  | .workCompleteRequest path word_counts =>
    "SubW" ++ ENDL ++ "Path: " ++ path ++ ENDL ++ "Word-Counts:" ++ ENDL ++
      concatLines (word_counts.map fun e => e.1 ++ " " ++ toString e.2 ++ ENDL) ++
      ENDL
  | .workCompleteResponse => "AckW" ++ ENDL ++ ENDL

/-- `HTTPGetRequest.parse`: `GET <path> HTTP/1.1` then `Host: <host>`. -/
def HTTPGetRequest.parse (firstline : String) (rest : List String) :
    Option Message :=
  if pyStartsWith firstline "GET " = false then none
  else
    match pysplit firstline with
    | [_, path, _] =>
      let r1 := readline rest
      match pysplit r1.1 with
      | [name, value] =>
        if name = "Host:" then some (.httpGetRequest value path) else none
      | _ => none
    | _ => none

/-- `GetWorkRequest.parse`: just the `ReqW` first line. -/
def GetWorkRequest.parse (firstline : String) (_rest : List String) :
    Option Message :=
  if pyStartsWith firstline "ReqW" = false then none else some .getWorkRequest

/-- `GetWorkResponse.parse`: `AsgW`, then a `Host:` line and a `Path:` line.
The value is `split[1] if len(split) > 1 else ""`; extra tokens are ignored. -/
def GetWorkResponse.parse (firstline : String) (rest : List String) :
    Option Message :=
  if pyStartsWith firstline "AsgW" = false then none
  else
    let r1 := readline rest
    match pysplit r1.1 with
    | [] => none
    | name1 :: vs1 =>
      if name1 = "Host:" then
        let r2 := readline r1.2
        match pysplit r2.1 with
        | [] => none
        | name2 :: vs2 =>
          if name2 = "Path:" then
            some (.getWorkResponse (vs1.headD "") (vs2.headD ""))
          else none
      else none

/-- The `while` loop of `WorkCompleteRequest.parse`: consume `<word> <count>`
lines into the dict until a blank line (or end of file). -/
def parseWordCounts : List String → List (String × Int) →
    Option (List (String × Int))
  | [], acc => some acc
  | l :: ls, acc =>
    match pysplit l with
    | [] => some acc
    | [w, c] =>
      match pyInt? c with
      | some n => parseWordCounts ls (dictInsert acc w n)
      | none => none
    | _ => none

/-- `WorkCompleteRequest.parse`: `SubW`, a `Path:` line, a `Word-Counts:`
line, then word-count lines until a blank line. -/
def WorkCompleteRequest.parse (firstline : String) (rest : List String) :
    Option Message :=
  if pyStartsWith firstline "SubW" = false then none
  else
    let r1 := readline rest
    match pysplit r1.1 with
    | [name, path] =>
      if name = "Path:" then
        let r2 := readline r1.2
        match pysplit r2.1 with
        | [name2] =>
          if name2 = "Word-Counts:" then
            (parseWordCounts r2.2 []).map fun wc => .workCompleteRequest path wc
          else none
        | _ => none
      else none
    | _ => none

/-- `WorkCompleteResponse.parse`: just the `AckW` first line. -/
def WorkCompleteResponse.parse (firstline : String) (_rest : List String) :
    Option Message :=
  if pyStartsWith firstline "AckW" = false then none
  else some .workCompleteResponse

/-- `Message.deserialize`: read the first line, try the registered prefixes in
the registration order of `Message.prefixes()`, and hand off to the matching
class's `parse`; no match (or a `parse` failure) raises `ValueError`,
modelled as `none`. -/
def Message.deserialize (lines : List String) : Option Message :=
  let r := readline lines
  if pyStartsWith r.1 "GET " then HTTPGetRequest.parse r.1 r.2
  else if pyStartsWith r.1 "ReqW" then GetWorkRequest.parse r.1 r.2
  else if pyStartsWith r.1 "AsgW" then GetWorkResponse.parse r.1 r.2
  else if pyStartsWith r.1 "SubW" then WorkCompleteRequest.parse r.1 r.2
  else if pyStartsWith r.1 "AckW" then WorkCompleteResponse.parse r.1 r.2
  else none

/-! ## The work tracker (`src/coordinator.py`, class `WorkTracker`)

Python sets of path strings are modelled as `Finset String`; the
`word_counts` dict as an insertion-ordered association list.  `random.choice`
is modelled by an explicit selection function `pick`, constrained in the
theorems to return an element of its (non-empty) argument.  A method that can
raise `KeyError` is modelled with `Except`, the error payload being the state
of the object at the moment the exception escapes. -/

/-- State of a `WorkTracker` object. -/
structure WorkTracker where
  play_download_host : String
  play_ids : List Nat
  word_counts : List (String × Int)
  unstarted_paths : Finset String
  started_paths : Finset String
  finished_paths : Finset String
  deriving DecidableEq

/-- The path built for play id `i` in `WorkTracker.__init__`:
`"/cache/epub/%s/pg%s.txt" % (i, i)`. -/
def play_path (i : Nat) : String :=
  "/cache/epub/" ++ toString i ++ "/pg" ++ toString i ++ ".txt"

/-- The body of `WorkTracker.__init__`, parameterized by the hard-coded list
of play ids: every play's path starts in `unstarted_paths`, the other two
sets and the accumulator start empty. -/
def mkWorkTracker (ids : List Nat) : WorkTracker where
  play_download_host := "www.gutenberg.org"
  play_ids := ids
  word_counts := []
  unstarted_paths := (ids.map play_path).toFinset
  started_paths := ∅
  finished_paths := ∅

/-- `WorkTracker.__init__` with the eight hard-coded Shakespeare play ids. -/
def WorkTracker.init : WorkTracker :=
  mkWorkTracker [1513, 27761, 23042, 1533, 1531, 1522, 1526, 1515]

/-- `WorkTracker.get_path_for_volunteer`: hand out an unstarted path (moving
it to `started_paths`); failing that, re-issue a started path unchanged;
failing that, return the empty "no work" path.  Returns the path and the
updated tracker. -/
def get_path_for_volunteer (pick : Finset String → String) (s : WorkTracker) :
    String × WorkTracker :=
  if 0 < s.unstarted_paths.card then
    let path := pick s.unstarted_paths
    (path, { s with unstarted_paths := s.unstarted_paths.erase path,
                    started_paths := insert path s.started_paths })
  else if 0 < s.started_paths.card then
    (pick s.started_paths, s)
  else ("", s)

/-- The `for` loop of `WorkTracker.process_result`: fold every report entry
into the accumulator with `d[word] = d.get(word, 0) + int(count)`. -/
def addCounts (d : List (String × Int)) : List (String × Int) →
    List (String × Int)
  | [] => d
  | (w, c) :: rest => addCounts (dictInsert d w (dictGet d w + c)) rest

/-- `WorkTracker.process_result`: a no-op for an already-finished path;
otherwise add all counts into the accumulator and then move the path from
`started_paths` to `finished_paths`.  `started_paths.remove` raises
`KeyError` when the path is absent — at that point the accumulator has
already been updated, which the `.error` payload records. -/
def process_result (s : WorkTracker) (path : String)
    (word_counts : List (String × Int)) : Except WorkTracker WorkTracker :=
  if path ∈ s.finished_paths then .ok s
  else
    let s1 := { s with word_counts := addCounts s.word_counts word_counts }
    if path ∈ s1.started_paths then
      .ok { s1 with started_paths := s1.started_paths.erase path,
                    finished_paths := insert path s1.finished_paths }
    else .error s1

/-- `WorkTracker.is_all_work_done`: `len(finished_paths) == len(play_ids)`. -/
def is_all_work_done (s : WorkTracker) : Bool :=
  s.finished_paths.card == s.play_ids.length

/-! ## The coordinator's serve loop (`src/coordinator.py`, class `Coordinator`)

`accept_connections_until_all_work_done` processes one connection per
iteration: deserialize one message and dispatch.  The surrounding
`try ... except TimeoutError: pass` catches only the accept timeout, so a
`ValueError` escaping `Message.deserialize` — or a `KeyError` escaping
`process_result` — terminates the loop abnormally.  One iteration's outcome
on a given connection is modelled explicitly. -/

/-- Outcome of handling one accepted connection. -/
inductive ServeOutcome where
  | reply (response : String) (s : WorkTracker)
  | dropped (s : WorkTracker)
  | crashed (s : WorkTracker)
  deriving DecidableEq

/-- One iteration of the serve loop body on a connection whose bytes arrive
as `lines`: `GetWorkRequest` is answered with a `GetWorkResponse` (empty
fields when all work is done, else the download host and an assigned path);
`WorkCompleteRequest` is folded into the tracker and acknowledged; any other
successfully decoded message is skipped by `continue`; a decode failure or a
`KeyError` from `process_result` escapes the loop (`crashed`). -/
def handle_connection (pick : Finset String → String) (s : WorkTracker)
    (lines : List String) : ServeOutcome :=
  match Message.deserialize lines with
  | none => .crashed s
  | some .getWorkRequest =>
    if is_all_work_done s then
      .reply (Message.serialize (.getWorkResponse "" "")) s
    else
      let r := get_path_for_volunteer pick s
      .reply (Message.serialize (.getWorkResponse s.play_download_host r.1)) r.2
  | some (.workCompleteRequest path word_counts) =>
    match process_result s path word_counts with
    | .ok s' => .reply (Message.serialize .workCompleteResponse) s'
    | .error s' => .crashed s'
  | some _ => .dropped s

/-! ## The volunteer's work loop (`src/volunteer.py`)

`keep_working_until_done` loops: `get_work()` returns `None` on a connection
failure or the deserialized response message; the loop breaks unless the
response is a `GetWorkResponse` with a non-empty host **and** a non-empty
path; otherwise it does the (external) work and breaks only if
`report_work` returns `None`. -/

/-- The control decision of one iteration of `keep_working_until_done`,
determined by the `get_work()` result and whether `report_work` returned a
truthy response. -/
inductive LoopDecision where
  | stopAtRequest
  | stopAfterReport (host path : String)
  | continueLoop (host path : String)
  deriving DecidableEq

/-- One iteration of the volunteer loop: `work` is the `get_work()` result
(`none` for a connection failure), `report_ok` tells whether the subsequent
`report_work` returned a response rather than `None`. -/
def keep_working_step (work : Option Message) (report_ok : Bool) :
    LoopDecision :=
  match work with
  | some (.getWorkResponse host path) =>
    if host = "" ∨ path = "" then .stopAtRequest
    else if report_ok then .continueLoop host path
    else .stopAfterReport host path
  | _ => .stopAtRequest

/-! ## Traces of tracker operations

The coordinator serializes all tracker mutations: a run is a sequence of
`assign` (`get_path_for_volunteer`) and `aggregate` (`process_result`) calls.
The contract is that `aggregate` is only ever called with a path previously
returned by `assign`; the ghost field `issued` records those paths. -/

/-- The tracker state at the moment a `process_result` call returns or its
`KeyError` escapes. -/
def exceptState : Except WorkTracker WorkTracker → WorkTracker
  | .ok s => s
  | .error s => s

/-- A tracker state plus the ghost set of non-sentinel paths that `assign`
has returned so far. -/
structure SysState where
  tracker : WorkTracker
  issued : Finset String

/-- One contract-respecting tracker operation: an `assign` call (recording a
non-sentinel returned path in `issued`), or an `aggregate` call on some
previously issued path. -/
inductive SysStep (pick : Finset String → String) : SysState → SysState → Prop
  | assign (σ : SysState) :
      SysStep pick σ
        { tracker := (get_path_for_volunteer pick σ.tracker).2,
          issued :=
            if (get_path_for_volunteer pick σ.tracker).1 = "" then σ.issued
            else insert (get_path_for_volunteer pick σ.tracker).1 σ.issued }
  | aggregate (σ : SysState) (p : String) (counts : List (String × Int))
      (hp : p ∈ σ.issued) :
      SysStep pick σ
        { tracker := exceptState (process_result σ.tracker p counts),
          issued := σ.issued }

/-- The job universe a tracker constructed from `ids` starts with. -/
def pathUniverse (ids : List Nat) : Finset String :=
  (ids.map play_path).toFinset

/-- States reachable by contract-respecting operation sequences from a
freshly constructed tracker. -/
def SysReachable (pick : Finset String → String) (ids : List Nat)
    (σ : SysState) : Prop :=
  Relation.ReflTransGen (SysStep pick) ⟨mkWorkTracker ids, ∅⟩ σ

/-- The three path sets are pairwise disjoint and partition the universe. -/
def TrackerPartition (U : Finset String) (s : WorkTracker) : Prop :=
  s.unstarted_paths ∪ s.started_paths ∪ s.finished_paths = U ∧
  Disjoint s.unstarted_paths s.started_paths ∧
  Disjoint s.unstarted_paths s.finished_paths ∧
  Disjoint s.started_paths s.finished_paths

/-- Invariant carried along traces: the three sets partition the universe
and every issued path is currently started or finished. -/
def SysInv (U : Finset String) (σ : SysState) : Prop :=
  TrackerPartition U σ.tracker ∧
  σ.issued ⊆ σ.tracker.started_paths ∪ σ.tracker.finished_paths

/-- One iteration of the completion-convergence driver of the spec: call
`assign`; if it returned a path (not the sentinel), call `aggregate` on it
with this round's counts. -/
def workRound (pick : Finset String → String) (counts : List (String × Int))
    (s : WorkTracker) : WorkTracker :=
  let r := get_path_for_volunteer pick s
  if r.1 = "" then r.2 else exceptState (process_result r.2 r.1 counts)

/-- Run `n` rounds of the driver, with arbitrary per-round counts. -/
def drive (pick : Finset String → String)
    (counts : Nat → List (String × Int)) : Nat → WorkTracker → WorkTracker
  | 0, s => s
  | n + 1, s => drive pick counts n (workRound pick (counts n) s)

/-! ## Well-formedness conditions for the round-trip law -/

/-- The string contains no whitespace characters (so it survives `split()`
and never contains a line break). -/
def noWS (s : String) : Prop :=
  ∀ c ∈ s.data, c.isWhitespace = false

/-- The message values whose wire encoding parses back to the same value:
all string fields whitespace-free, the fields that the corresponding parser
refuses to read back empty being non-empty, and the report's words pairwise
distinct (they are dict keys). -/
def goodMsg : Message → Prop
  | .httpGetRequest host path => noWS host ∧ noWS path ∧ host ≠ "" ∧ path ≠ ""
  | .getWorkRequest => True
  | .getWorkResponse host path => noWS host ∧ noWS path
  | .workCompleteRequest path wc =>
    noWS path ∧ path ≠ "" ∧ (∀ e ∈ wc, noWS e.1 ∧ e.1 ≠ "") ∧
      (wc.map Prod.fst).Nodup
  | .workCompleteResponse => True

/-- The lines `readline()` yields for a serialized message (used as a
stepping stone between `Message.serialize` and the parsers). -/
def serializeLines : Message → List String
  | .httpGetRequest host path =>
    ["GET " ++ path ++ " HTTP/1.1\n", "Host: " ++ host ++ "\n", "\n"]
  | .getWorkRequest => ["ReqW\n", "\n"]
  | .getWorkResponse host path =>
    ["AsgW\n", "Host: " ++ host ++ "\n", "Path: " ++ path ++ "\n", "\n"]
  | .workCompleteRequest path wc =>
    "SubW\n" :: ("Path: " ++ path ++ "\n") :: "Word-Counts:\n" ::
      ((wc.map fun e => e.1 ++ " " ++ toString e.2 ++ "\n") ++ ["\n"])
  | .workCompleteResponse => ["AckW\n", "\n"]

/-- The message variants the serve loop dispatches on (`isinstance` checks
in `accept_connections_until_all_work_done`). -/
def isDispatched : Message → Bool
  | .getWorkRequest => true
  | .workCompleteRequest _ _ => true
  | _ => false

/-- Decimal digits of `n`, most significant first (specification mirror of
`Nat.toDigitsCore`, used to reason about `Nat.repr`). -/
def natDigits (n : Nat) : List Char :=
  if n < 10 then [Nat.digitChar n]
  else natDigits (n / 10) ++ [Nat.digitChar (n % 10)]
decreasing_by exact Nat.div_lt_self (by omega) (by omega)

/-- A concrete selection function standing in for `random.choice`: the least
element of the set (any function returning a member would do). -/
def pick₀ (t : Finset String) : String :=
  (t.sort (· ≤ ·)).headD ""

lemma pick₀_mem (t : Finset String) (h : t.Nonempty) : pick₀ t ∈ t := by
  have hlen : (t.sort (· ≤ ·)).length = t.card := Finset.length_sort _
  have hpos : 0 < (t.sort (· ≤ ·)).length := by
    rw [hlen]
    exact Finset.card_pos.mpr h
  cases hsort : t.sort (· ≤ ·) with
  | nil => rw [hsort] at hpos; simp at hpos
  | cons a l =>
    have ha : pick₀ t = a := by rw [pick₀, hsort]; rfl
    rw [ha, ← Finset.mem_sort (α := String) (· ≤ ·) (s := t), hsort]
    exact List.mem_cons_self a l


/-! ## C1: idempotent aggregation -/

/-- C1: for every tracker state and counts mapping, `aggregate` on an
already-finished path is a no-op (accumulator and all three sets unchanged);
consequently, after any successful `aggregate`, repeating the same call
leaves the resulting state fixed. -/
theorem aggregate_idempotent (s : WorkTracker) (path : String)
    (counts : List (String × Int)) :
    (path ∈ s.finished_paths → process_result s path counts = .ok s) ∧
    ∀ s', process_result s path counts = .ok s' →
      process_result s' path counts = .ok s' := by
  constructor
  · intro h
    simp [process_result, h]
  · intro s' h
    by_cases hf : path ∈ s.finished_paths
    · simp [process_result, hf] at h
      rw [← h]
      simp [process_result, hf]
    · simp only [process_result, hf, if_false] at h
      by_cases hs : path ∈ s.started_paths
      · simp only [hs, if_true, Except.ok.injEq] at h
        rw [← h]
        simp [process_result]
      · simp [hs] at h

/-- Witness for C1 at a concrete state whose `finished_paths` contains the
reported path. -/
theorem aggregate_idempotent_witness :
    process_result { mkWorkTracker [] with finished_paths := {"p"} } "p"
        [("a", 2)] =
      .ok { mkWorkTracker [] with finished_paths := {"p"} } :=
  (aggregate_idempotent { mkWorkTracker [] with finished_paths := {"p"} } "p"
    [("a", 2)]).1 (by decide)

/-! ## C5: totality and case analysis of `assign` -/

/-- C5: `get_path_for_volunteer` never fails: with unstarted work it returns
an element of `unstarted_paths` and moves exactly that element to
`started_paths`; with only started work it returns an element of
`started_paths` and leaves the state unchanged; with no work it returns the
empty sentinel and leaves the state unchanged. -/
theorem assign_total_cases (pick : Finset String → String)
    (hpick : ∀ t : Finset String, t.Nonempty → pick t ∈ t) (s : WorkTracker) :
    (s.unstarted_paths.Nonempty →
      pick s.unstarted_paths ∈ s.unstarted_paths ∧
      get_path_for_volunteer pick s =
        (pick s.unstarted_paths,
         { s with
            unstarted_paths := s.unstarted_paths.erase (pick s.unstarted_paths),
            started_paths := insert (pick s.unstarted_paths) s.started_paths })) ∧
    (s.unstarted_paths = ∅ → s.started_paths.Nonempty →
      pick s.started_paths ∈ s.started_paths ∧
      get_path_for_volunteer pick s = (pick s.started_paths, s)) ∧
    (s.unstarted_paths = ∅ → s.started_paths = ∅ →
      get_path_for_volunteer pick s = ("", s)) := by
  refine ⟨fun h1 => ⟨hpick _ h1, ?_⟩, fun h1 h2 => ⟨hpick _ h2, ?_⟩,
    fun h1 h2 => ?_⟩
  · simp [get_path_for_volunteer, Finset.card_pos.mpr h1]
  · simp [get_path_for_volunteer, h1, Finset.card_pos.mpr h2]
  · simp [get_path_for_volunteer, h1, h2]

/-- Witness for C5 on the freshly constructed tracker, whose unstarted set
is non-empty. -/
theorem assign_total_cases_witness :
    pick₀ WorkTracker.init.unstarted_paths ∈ WorkTracker.init.unstarted_paths ∧
    get_path_for_volunteer pick₀ WorkTracker.init =
      (pick₀ WorkTracker.init.unstarted_paths,
       { WorkTracker.init with
          unstarted_paths :=
            WorkTracker.init.unstarted_paths.erase
              (pick₀ WorkTracker.init.unstarted_paths),
          started_paths :=
            insert (pick₀ WorkTracker.init.unstarted_paths)
              WorkTracker.init.started_paths }) :=
  (assign_total_cases pick₀ pick₀_mem WorkTracker.init).1
    (by rw [Finset.nonempty_iff_ne_empty]; decide)

/-! ## C10: aggregation of a never-assigned path raises KeyError
after mutating the accumulator -/

/-- C10: when the reported path is neither finished nor started,
`process_result` raises `KeyError` from `started_paths.remove`, but only
after the whole report has been added into the accumulator; the escaping
state carries the mutated accumulator while `started_paths` and
`finished_paths` (in particular) are untouched. -/
theorem aggregate_unassigned_keyerror (s : WorkTracker) (path : String)
    (counts : List (String × Int))
    (h1 : path ∉ s.finished_paths) (h2 : path ∉ s.started_paths) :
    process_result s path counts =
      .error { s with word_counts := addCounts s.word_counts counts } := by
  simp [process_result, h1, h2]

/-- Witness for C10: a path still in `unstarted_paths` (never assigned) is
reported; the error state shows the counts already folded in. -/
theorem aggregate_unassigned_keyerror_witness :
    process_result (mkWorkTracker [1513]) (play_path 1513) [("a", 2)] =
      .error { mkWorkTracker [1513] with
                word_counts := addCounts (mkWorkTracker [1513]).word_counts
                  [("a", 2)] } :=
  aggregate_unassigned_keyerror (mkWorkTracker [1513]) (play_path 1513)
    [("a", 2)] (by decide) (by decide)

/-! ## Helper lemmas about `process_result` and `get_path_for_volunteer` -/

@[simp] lemma exceptState_ok (s : WorkTracker) : exceptState (.ok s) = s := rfl

@[simp] lemma exceptState_error (s : WorkTracker) :
    exceptState (.error s) = s := rfl

lemma process_result_of_finished (s : WorkTracker) (p : String)
    (counts : List (String × Int)) (h : p ∈ s.finished_paths) :
    process_result s p counts = .ok s := by
  simp [process_result, h]

lemma process_result_of_started (s : WorkTracker) (p : String)
    (counts : List (String × Int)) (h1 : p ∉ s.finished_paths)
    (h2 : p ∈ s.started_paths) :
    process_result s p counts =
      .ok { s with word_counts := addCounts s.word_counts counts,
                   started_paths := s.started_paths.erase p,
                   finished_paths := insert p s.finished_paths } := by
  simp [process_result, h1, h2]

lemma process_result_of_unassigned (s : WorkTracker) (p : String)
    (counts : List (String × Int)) (h1 : p ∉ s.finished_paths)
    (h2 : p ∉ s.started_paths) :
    process_result s p counts =
      .error { s with word_counts := addCounts s.word_counts counts } := by
  simp [process_result, h1, h2]

lemma assign_unstarted (pick : Finset String → String) (s : WorkTracker)
    (h : 0 < s.unstarted_paths.card) :
    get_path_for_volunteer pick s =
      (pick s.unstarted_paths,
       { s with
          unstarted_paths := s.unstarted_paths.erase (pick s.unstarted_paths),
          started_paths := insert (pick s.unstarted_paths) s.started_paths }) := by
  simp [get_path_for_volunteer, h]

lemma assign_started (pick : Finset String → String) (s : WorkTracker)
    (h1 : s.unstarted_paths.card = 0) (h2 : 0 < s.started_paths.card) :
    get_path_for_volunteer pick s = (pick s.started_paths, s) := by
  simp [get_path_for_volunteer, h1, h2]

lemma assign_none (pick : Finset String → String) (s : WorkTracker)
    (h1 : s.unstarted_paths.card = 0) (h2 : s.started_paths.card = 0) :
    get_path_for_volunteer pick s = ("", s) := by
  simp [get_path_for_volunteer, h1, h2]

/-! ## Preservation of the partition invariant -/

lemma partition_after_assign (pick : Finset String → String)
    (hpick : ∀ t : Finset String, t.Nonempty → pick t ∈ t)
    (U : Finset String) (s : WorkTracker) (hpart : TrackerPartition U s) :
    TrackerPartition U (get_path_for_volunteer pick s).2 := by
  obtain ⟨hU, h12, h13, h23⟩ := hpart
  by_cases hc1 : 0 < s.unstarted_paths.card
  · have hp : pick s.unstarted_paths ∈ s.unstarted_paths :=
      hpick _ (Finset.card_pos.mp hc1)
    rw [assign_unstarted pick s hc1]
    refine ⟨?_, ?_, ?_, ?_⟩
    · rw [← hU]
      ext x
      simp only [Finset.mem_union, Finset.mem_erase, Finset.mem_insert]
      by_cases hxp : x = pick s.unstarted_paths
      · subst hxp
        simp [hp]
      · simp [hxp]
    · rw [Finset.disjoint_left] at h12 ⊢
      intro x hx hx'
      obtain ⟨hxne, hxu⟩ := Finset.mem_erase.mp hx
      rcases Finset.mem_insert.mp hx' with rfl | hxs
      · exact hxne rfl
      · exact h12 hxu hxs
    · rw [Finset.disjoint_left] at h13 ⊢
      intro x hx hx'
      exact h13 (Finset.mem_of_mem_erase hx) hx'
    · rw [Finset.disjoint_left] at h13 h23 ⊢
      intro x hx hx'
      rcases Finset.mem_insert.mp hx with rfl | hxs
      · exact h13 hp hx'
      · exact h23 hxs hx'
  · by_cases hc2 : 0 < s.started_paths.card
    · rw [assign_started pick s (by omega) hc2]
      exact ⟨hU, h12, h13, h23⟩
    · rw [assign_none pick s (by omega) (by omega)]
      exact ⟨hU, h12, h13, h23⟩

lemma partition_after_aggregate (U : Finset String) (s : WorkTracker)
    (p : String) (counts : List (String × Int))
    (hpart : TrackerPartition U s)
    (hp : p ∈ s.started_paths ∪ s.finished_paths) :
    TrackerPartition U (exceptState (process_result s p counts)) := by
  obtain ⟨hU, h12, h13, h23⟩ := hpart
  by_cases hf : p ∈ s.finished_paths
  · rw [process_result_of_finished s p counts hf, exceptState_ok]
    exact ⟨hU, h12, h13, h23⟩
  · have hs : p ∈ s.started_paths := by
      rcases Finset.mem_union.mp hp with h | h
      · exact h
      · exact absurd h hf
    rw [process_result_of_started s p counts hf hs, exceptState_ok]
    refine ⟨?_, ?_, ?_, ?_⟩
    · rw [← hU]
      ext x
      simp only [Finset.mem_union, Finset.mem_erase, Finset.mem_insert]
      by_cases hxp : x = p
      · subst hxp
        simp [hs]
      · simp [hxp]
    · rw [Finset.disjoint_left] at h12 ⊢
      intro x hx hx'
      exact h12 hx (Finset.mem_of_mem_erase hx')
    · rw [Finset.disjoint_left] at h12 h13 ⊢
      intro x hx hx'
      rcases Finset.mem_insert.mp hx' with rfl | hxf
      · exact h12 hx hs
      · exact h13 hx hxf
    · rw [Finset.disjoint_left] at h23 ⊢
      intro x hx hx'
      obtain ⟨hxne, hxs⟩ := Finset.mem_erase.mp hx
      rcases Finset.mem_insert.mp hx' with rfl | hxf
      · exact hxne rfl
      · exact h23 hxs hxf

lemma sysInv_step (pick : Finset String → String)
    (hpick : ∀ t : Finset String, t.Nonempty → pick t ∈ t)
    (U : Finset String) (σ σ' : SysState) (hinv : SysInv U σ)
    (hstep : SysStep pick σ σ') : SysInv U σ' := by
  obtain ⟨hpart, hiss⟩ := hinv
  cases hstep with
  | assign =>
    refine ⟨partition_after_assign pick hpick U σ.tracker hpart, ?_⟩
    by_cases hc1 : 0 < σ.tracker.unstarted_paths.card
    · simp only [assign_unstarted pick σ.tracker hc1]
      split_ifs with hpe
      · intro x hx
        rcases Finset.mem_union.mp (hiss hx) with h | h
        · exact Finset.mem_union_left _ (Finset.mem_insert_of_mem h)
        · exact Finset.mem_union_right _ h
      · intro x hx
        rcases Finset.mem_insert.mp hx with rfl | hxi
        · exact Finset.mem_union_left _ (Finset.mem_insert_self _ _)
        · rcases Finset.mem_union.mp (hiss hxi) with h | h
          · exact Finset.mem_union_left _ (Finset.mem_insert_of_mem h)
          · exact Finset.mem_union_right _ h
    · by_cases hc2 : 0 < σ.tracker.started_paths.card
      · have hp : pick σ.tracker.started_paths ∈ σ.tracker.started_paths :=
          hpick _ (Finset.card_pos.mp hc2)
        simp only [assign_started pick σ.tracker (by omega) hc2]
        split_ifs with hpe
        · exact hiss
        · intro x hx
          rcases Finset.mem_insert.mp hx with rfl | hxi
          · exact Finset.mem_union_left _ hp
          · exact hiss hxi
      · simp only [assign_none pick σ.tracker (by omega) (by omega)]
        exact hiss
  | aggregate p counts hp =>
    have hpu : p ∈ σ.tracker.started_paths ∪ σ.tracker.finished_paths :=
      hiss hp
    refine ⟨partition_after_aggregate U σ.tracker p counts hpart hpu, ?_⟩
    by_cases hf : p ∈ σ.tracker.finished_paths
    · rw [process_result_of_finished σ.tracker p counts hf, exceptState_ok]
      exact hiss
    · have hs : p ∈ σ.tracker.started_paths := by
        rcases Finset.mem_union.mp hpu with h | h
        · exact h
        · exact absurd h hf
      rw [process_result_of_started σ.tracker p counts hf hs, exceptState_ok]
      intro x hx
      by_cases hxp : x = p
      · subst hxp
        exact Finset.mem_union_right _ (Finset.mem_insert_self _ _)
      · rcases Finset.mem_union.mp (hiss hx) with h | h
        · exact Finset.mem_union_left _ (Finset.mem_erase.mpr ⟨hxp, h⟩)
        · exact Finset.mem_union_right _ (Finset.mem_insert_of_mem h)

lemma sysInv_reachable (pick : Finset String → String)
    (hpick : ∀ t : Finset String, t.Nonempty → pick t ∈ t)
    (ids : List Nat) (σ : SysState) (h : SysReachable pick ids σ) :
    SysInv (pathUniverse ids) σ := by
  induction h with
  | refl =>
    refine ⟨⟨?_, ?_, ?_, ?_⟩, ?_⟩
    · simp [mkWorkTracker, pathUniverse]
    · simp [mkWorkTracker]
    · simp [mkWorkTracker]
    · simp [mkWorkTracker]
    · simp
  | tail _ hbc ih => exact sysInv_step pick hpick _ _ _ ih hbc

lemma finished_mono_step (pick : Finset String → String) (σ σ' : SysState)
    (h : SysStep pick σ σ') :
    σ.tracker.finished_paths ⊆ σ'.tracker.finished_paths := by
  cases h with
  | assign =>
    by_cases hc1 : 0 < σ.tracker.unstarted_paths.card
    · simp only [assign_unstarted pick σ.tracker hc1]
      exact Finset.Subset.refl _
    · by_cases hc2 : 0 < σ.tracker.started_paths.card
      · simp only [assign_started pick σ.tracker (by omega) hc2]
        exact Finset.Subset.refl _
      · simp only [assign_none pick σ.tracker (by omega) (by omega)]
        exact Finset.Subset.refl _
  | aggregate p counts hp =>
    by_cases hf : p ∈ σ.tracker.finished_paths
    · rw [process_result_of_finished σ.tracker p counts hf, exceptState_ok]
    · by_cases hs : p ∈ σ.tracker.started_paths
      · rw [process_result_of_started σ.tracker p counts hf hs, exceptState_ok]
        exact Finset.subset_insert _ _
      · rw [process_result_of_unassigned σ.tracker p counts hf hs,
          exceptState_error]

/-! ## C2: the partition invariant along all contract-respecting traces -/

/-- C2: along every contract-respecting sequence of `assign`/`aggregate`
calls from a freshly constructed tracker, the three path sets stay pairwise
disjoint, their union stays the job universe fixed at construction, the sum
of their sizes stays equal to the universe size, and every step only ever
grows `finished_paths`. -/
theorem tracker_partition_invariant (ids : List Nat)
    (pick : Finset String → String)
    (hpick : ∀ t : Finset String, t.Nonempty → pick t ∈ t)
    (σ : SysState) (hreach : SysReachable pick ids σ) :
    (TrackerPartition (pathUniverse ids) σ.tracker ∧
      σ.tracker.unstarted_paths.card + σ.tracker.started_paths.card +
        σ.tracker.finished_paths.card = (pathUniverse ids).card) ∧
    ∀ σ1 σ2, SysStep pick σ1 σ2 →
      σ1.tracker.finished_paths ⊆ σ2.tracker.finished_paths := by
  have hinv := sysInv_reachable pick hpick ids σ hreach
  refine ⟨⟨hinv.1, ?_⟩, fun σ1 σ2 h => finished_mono_step pick σ1 σ2 h⟩
  obtain ⟨hU, h12, h13, h23⟩ := hinv.1
  have hd : Disjoint
      (σ.tracker.unstarted_paths ∪ σ.tracker.started_paths)
      σ.tracker.finished_paths :=
    Finset.disjoint_union_left.mpr ⟨h13, h23⟩
  rw [← hU, Finset.card_union_of_disjoint hd,
    Finset.card_union_of_disjoint h12]

/-- Witness for C2: the freshly constructed single-play tracker is reachable
by the empty trace. -/
theorem tracker_partition_invariant_witness :
    (TrackerPartition (pathUniverse [1513])
        (SysState.mk (mkWorkTracker [1513]) ∅).tracker ∧
      (SysState.mk (mkWorkTracker [1513]) ∅).tracker.unstarted_paths.card +
        (SysState.mk (mkWorkTracker [1513]) ∅).tracker.started_paths.card +
        (SysState.mk (mkWorkTracker [1513]) ∅).tracker.finished_paths.card =
        (pathUniverse [1513]).card) ∧
    ∀ σ1 σ2, SysStep pick₀ σ1 σ2 →
      σ1.tracker.finished_paths ⊆ σ2.tracker.finished_paths :=
  tracker_partition_invariant [1513] pick₀ pick₀_mem
    (SysState.mk (mkWorkTracker [1513]) ∅) Relation.ReflTransGen.refl

/-! ## C6: the assign/aggregate driver reaches completion -/

lemma workRound_eq (pick : Finset String → String)
    (counts : List (String × Int)) (s : WorkTracker) :
    workRound pick counts s =
      if (get_path_for_volunteer pick s).1 = "" then
        (get_path_for_volunteer pick s).2
      else
        exceptState (process_result (get_path_for_volunteer pick s).2
          (get_path_for_volunteer pick s).1 counts) := rfl

lemma play_path_ne_empty (i : Nat) : play_path i ≠ "" := by
  intro h
  have hlen : (play_path i).length = 0 := by rw [h]; rfl
  unfold play_path at hlen
  rw [String.length_append, String.length_append, String.length_append,
    String.length_append] at hlen
  have h12 : ("/cache/epub/" : String).length = 12 := rfl
  omega

lemma mem_pathUniverse_ne_empty (ids : List Nat) (p : String)
    (hp : p ∈ pathUniverse ids) : p ≠ "" := by
  rw [pathUniverse, List.mem_toFinset] at hp
  obtain ⟨i, _, rfl⟩ := List.mem_map.mp hp
  exact play_path_ne_empty i

lemma mkWorkTracker_partition (ids : List Nat) :
    TrackerPartition (pathUniverse ids) (mkWorkTracker ids) := by
  refine ⟨?_, ?_, ?_, ?_⟩ <;> simp [mkWorkTracker, pathUniverse]

lemma workRound_progress (pick : Finset String → String)
    (hpick : ∀ t : Finset String, t.Nonempty → pick t ∈ t)
    (ids : List Nat) (counts : List (String × Int)) (s : WorkTracker)
    (hpart : TrackerPartition (pathUniverse ids) s) :
    TrackerPartition (pathUniverse ids) (workRound pick counts s) ∧
    (workRound pick counts s).unstarted_paths.card +
        (workRound pick counts s).started_paths.card =
      s.unstarted_paths.card + s.started_paths.card - 1 ∧
    (workRound pick counts s).play_ids = s.play_ids := by
  obtain ⟨hU, h12, h13, h23⟩ := hpart
  by_cases hc1 : 0 < s.unstarted_paths.card
  · have hne : s.unstarted_paths.Nonempty := Finset.card_pos.mp hc1
    have hp : pick s.unstarted_paths ∈ s.unstarted_paths := hpick _ hne
    have hpU : pick s.unstarted_paths ∈ pathUniverse ids := by
      rw [← hU]
      exact Finset.mem_union_left _ (Finset.mem_union_left _ hp)
    have hpne := mem_pathUniverse_ne_empty ids _ hpU
    have hps : pick s.unstarted_paths ∉ s.started_paths :=
      Finset.disjoint_left.mp h12 hp
    have hpf : pick s.unstarted_paths ∉ s.finished_paths :=
      Finset.disjoint_left.mp h13 hp
    have hpart' : TrackerPartition (pathUniverse ids)
        { s with
            unstarted_paths :=
              s.unstarted_paths.erase (pick s.unstarted_paths),
            started_paths :=
              insert (pick s.unstarted_paths) s.started_paths } := by
      have h := partition_after_assign pick hpick (pathUniverse ids) s
        ⟨hU, h12, h13, h23⟩
      rwa [assign_unstarted pick s hc1] at h
    simp only [workRound_eq, assign_unstarted pick s hc1]
    rw [if_neg hpne]
    refine ⟨?_, ?_, ?_⟩
    · exact partition_after_aggregate _ _ _ counts hpart'
        (Finset.mem_union_left _ (Finset.mem_insert_self _ _))
    · rw [process_result_of_started
        { s with
            unstarted_paths := s.unstarted_paths.erase (pick s.unstarted_paths),
            started_paths := insert (pick s.unstarted_paths) s.started_paths }
        (pick s.unstarted_paths) counts hpf (Finset.mem_insert_self _ _),
        exceptState_ok]
      simp only [Finset.erase_insert hps, Finset.card_erase_of_mem hp]
      omega
    · rw [process_result_of_started
        { s with
            unstarted_paths := s.unstarted_paths.erase (pick s.unstarted_paths),
            started_paths := insert (pick s.unstarted_paths) s.started_paths }
        (pick s.unstarted_paths) counts hpf (Finset.mem_insert_self _ _),
        exceptState_ok]
  · by_cases hc2 : 0 < s.started_paths.card
    · have hne : s.started_paths.Nonempty := Finset.card_pos.mp hc2
      have hp : pick s.started_paths ∈ s.started_paths := hpick _ hne
      have hpU : pick s.started_paths ∈ pathUniverse ids := by
        rw [← hU]
        exact Finset.mem_union_left _ (Finset.mem_union_right _ hp)
      have hpne := mem_pathUniverse_ne_empty ids _ hpU
      have hpf : pick s.started_paths ∉ s.finished_paths :=
        Finset.disjoint_left.mp h23 hp
      simp only [workRound_eq, assign_started pick s (by omega) hc2]
      rw [if_neg hpne]
      refine ⟨?_, ?_, ?_⟩
      · exact partition_after_aggregate _ _ _ counts ⟨hU, h12, h13, h23⟩
          (Finset.mem_union_left _ hp)
      · rw [process_result_of_started _ _ counts hpf hp, exceptState_ok]
        show s.unstarted_paths.card + (s.started_paths.erase
          (pick s.started_paths)).card = _
        rw [Finset.card_erase_of_mem hp]
        omega
      · rw [process_result_of_started _ _ counts hpf hp, exceptState_ok]
    · have hr : workRound pick counts s = s := by
        rw [workRound_eq, assign_none pick s (by omega) (by omega)]
        rfl
      rw [hr]
      exact ⟨⟨hU, h12, h13, h23⟩, by omega, rfl⟩

lemma drive_invariant (pick : Finset String → String)
    (hpick : ∀ t : Finset String, t.Nonempty → pick t ∈ t)
    (ids : List Nat) (counts : Nat → List (String × Int)) (k : Nat) :
    ∀ s : WorkTracker, TrackerPartition (pathUniverse ids) s →
      s.unstarted_paths.card + s.started_paths.card ≤ k →
      TrackerPartition (pathUniverse ids) (drive pick counts k s) ∧
      (drive pick counts k s).unstarted_paths.card +
          (drive pick counts k s).started_paths.card = 0 ∧
      (drive pick counts k s).play_ids = s.play_ids := by
  induction k with
  | zero =>
    intro s hpart hm
    simp only [drive]
    exact ⟨hpart, by omega, trivial⟩
  | succ n ih =>
    intro s hpart hm
    obtain ⟨h1, h2, h3⟩ := workRound_progress pick hpick ids (counts n) s hpart
    have hrec := ih (workRound pick (counts n) s) h1 (by omega)
    simp only [drive]
    exact ⟨hrec.1, hrec.2.1, by rw [hrec.2.2, h3]⟩

/-- C6: from a freshly constructed tracker over a non-empty job universe
(whose play ids produce pairwise distinct paths, as the eight hard-coded ids
do), a driver that repeatedly calls `assign` and then `aggregate` on the
returned path — with arbitrary counts each round — makes `is_all_work_done`
true after at most one round per job. -/
theorem drive_reaches_completion (ids : List Nat)
    (pick : Finset String → String)
    (hpick : ∀ t : Finset String, t.Nonempty → pick t ∈ t)
    (counts : Nat → List (String × Int))
    (_hpos : 0 < (pathUniverse ids).card)
    (hlen : (pathUniverse ids).card = ids.length) :
    is_all_work_done (drive pick counts ids.length (mkWorkTracker ids)) =
      true := by
  have hm0 : (mkWorkTracker ids).unstarted_paths.card +
      (mkWorkTracker ids).started_paths.card ≤ ids.length := by
    simp only [mkWorkTracker, Finset.card_empty, Nat.add_zero]
    exact le_of_eq hlen
  obtain ⟨⟨hU, h12, h13, h23⟩, hzero, hids⟩ :=
    drive_invariant pick hpick ids counts ids.length (mkWorkTracker ids)
      (mkWorkTracker_partition ids) hm0
  have hu0 : (drive pick counts ids.length
      (mkWorkTracker ids)).unstarted_paths = ∅ :=
    Finset.card_eq_zero.mp (by omega)
  have hs0 : (drive pick counts ids.length
      (mkWorkTracker ids)).started_paths = ∅ :=
    Finset.card_eq_zero.mp (by omega)
  have hfin : (drive pick counts ids.length
      (mkWorkTracker ids)).finished_paths = pathUniverse ids := by
    rw [← hU, hu0, hs0]
    simp
  have hplay : (drive pick counts ids.length
      (mkWorkTracker ids)).play_ids = ids := by
    rw [hids]
    simp [mkWorkTracker]
  simp only [is_all_work_done, hfin, hplay, hlen]
  exact beq_self_eq_true _

/-- Witness for C6 on a one-play universe: one round of the driver finishes
all work. -/
theorem drive_reaches_completion_witness :
    is_all_work_done (drive pick₀ (fun _ => []) ([1513] : List Nat).length
      (mkWorkTracker [1513])) = true :=
  drive_reaches_completion [1513] pick₀ pick₀_mem (fun _ => []) (by decide)
    (by decide)

/-! ## Decimal printing: `Nat.repr` / `toString (i : Int)` characterized -/

lemma natDigits_toDigitsCore :
    ∀ fuel n acc, n < fuel →
      Nat.toDigitsCore 10 fuel n acc = natDigits n ++ acc := by
  intro fuel
  induction fuel with
  | zero => intro n acc h; omega
  | succ f ih =>
    intro n acc h
    simp only [Nat.toDigitsCore]
    by_cases h10 : n < 10
    · have hz : n / 10 = 0 := Nat.div_eq_of_lt h10
      have hnd : natDigits n = [Nat.digitChar n] := by
        rw [natDigits, if_pos h10]
      rw [hnd]
      simp [hz, Nat.mod_eq_of_lt h10]
    · have hz : n / 10 ≠ 0 := by
        intro h0
        have := (Nat.div_eq_zero_iff (show 0 < 10 by norm_num)).mp h0
        omega
      have hnd : natDigits n = natDigits (n / 10) ++ [Nat.digitChar (n % 10)] := by
        conv_lhs => rw [natDigits]
        rw [if_neg h10]
      rw [if_neg hz]
      have hlt : n / 10 < f := by
        have h1 : n / 10 < n := Nat.div_lt_self (by omega) (by omega)
        omega
      rw [ih (n / 10) _ hlt, hnd]
      simp [List.append_assoc]

lemma natDigits_repr (n : Nat) : (Nat.repr n).data = natDigits n := by
  show (Nat.toDigits 10 n).asString.data = natDigits n
  rw [Nat.toDigits, natDigits_toDigitsCore (n + 1) n [] (by omega)]
  simp [List.asString]

lemma digitChar_lt_10 (d : Nat) (h : d < 10) :
    (Nat.digitChar d).isDigit = true ∧ (Nat.digitChar d).toNat - 48 = d := by
  interval_cases d <;> simp [Nat.digitChar, Char.isDigit]

lemma digitsVal_append (cs : List Char) (d : Char) :
    digitsVal (cs ++ [d]) = 10 * digitsVal cs + (d.toNat - 48) := by
  simp [digitsVal, List.foldl_append]

lemma natDigits_spec (n : Nat) :
    digitsVal (natDigits n) = n ∧ natDigits n ≠ [] ∧
      ∀ c ∈ natDigits n, c.isDigit = true := by
  induction n using Nat.strong_induction_on with
  | _ n ih =>
    by_cases h10 : n < 10
    · rw [natDigits, if_pos h10]
      obtain ⟨hd, hv⟩ := digitChar_lt_10 n h10
      refine ⟨?_, by simp, ?_⟩
      · simp [digitsVal, hv]
      · intro c hc
        simp at hc
        rw [hc]
        exact hd
    · rw [natDigits, if_neg h10]
      have hlt : n / 10 < n := Nat.div_lt_self (by omega) (by omega)
      obtain ⟨ihv, ihne, ihd⟩ := ih (n / 10) hlt
      obtain ⟨hd, hv⟩ := digitChar_lt_10 (n % 10) (Nat.mod_lt n (by omega))
      refine ⟨?_, by simp, ?_⟩
      · rw [digitsVal_append, ihv, hv]
        omega
      · intro c hc
        rcases List.mem_append.mp hc with h | h
        · exact ihd c h
        · simp at h
          rw [h]
          exact hd

lemma isDigit_ne_plus (c : Char) (h : c.isDigit = true) : c ≠ '+' := by
  rintro rfl
  simp [Char.isDigit] at h

lemma isDigit_ne_minus (c : Char) (h : c.isDigit = true) : c ≠ '-' := by
  rintro rfl
  simp [Char.isDigit] at h

lemma pyInt?_of_digits (s : String) (h1 : s.data ≠ [])
    (h2 : ∀ c ∈ s.data, c.isDigit = true) :
    pyInt? s = some (Int.ofNat (digitsVal s.data)) := by
  rcases hd : s.data with _ | ⟨c, cs⟩
  · exact absurd hd h1
  · have hc := h2 c (by rw [hd]; exact List.mem_cons_self c cs)
    simp only [pyInt?, hd]
    rw [if_neg (isDigit_ne_plus c hc), if_neg (isDigit_ne_minus c hc)]
    rw [digitsVal?, if_pos]
    · rfl
    · refine ⟨by simp, ?_⟩
      rw [List.all_eq_true]
      intro x hx
      exact h2 x (by rw [hd]; exact hx)

lemma pyInt?_toString_int (i : Int) : pyInt? (toString i) = some i := by
  cases i with
  | ofNat n =>
    have hdata : (toString (Int.ofNat n)).data = natDigits n := by
      show (Nat.repr n).data = natDigits n
      exact natDigits_repr n
    obtain ⟨hval, hne, hdig⟩ := natDigits_spec n
    rw [pyInt?_of_digits _ (by rw [hdata]; exact hne)
      (by rw [hdata]; exact hdig), hdata, hval]
  | negSucc m =>
    have hdata : (toString (Int.negSucc m)).data = '-' :: natDigits (m + 1) := by
      show ("-" ++ Nat.repr (m + 1)).data = _
      rw [String.data_append, natDigits_repr]
      rfl
    obtain ⟨hval, hne, hdig⟩ := natDigits_spec (m + 1)
    simp only [pyInt?, hdata]
    simp only [if_true]
    have hcond : natDigits (m + 1) ≠ [] ∧
        (natDigits (m + 1)).all Char.isDigit = true :=
      ⟨hne, List.all_eq_true.mpr hdig⟩
    rw [digitsVal?, if_pos hcond, hval]
    show some (-(((m : Int) + 1))) = some (Int.negSucc m)
    rw [Int.negSucc_eq]

lemma isDigit_not_ws (c : Char) (h : c.isDigit = true) :
    c.isWhitespace = false := by
  by_contra hw
  have hw' : c.isWhitespace = true := by
    cases hws : c.isWhitespace
    · exact absurd hws hw
    · rfl
  have hor : ((c = ' ' ∨ c = '\t') ∨ c = '\r') ∨ c = '\n' := by
    simpa [Char.isWhitespace, Bool.or_eq_true, decide_eq_true_eq] using hw'
  rcases hor with ((rfl | rfl) | rfl) | rfl <;> simp [Char.isDigit] at h

lemma int_toString_no_ws (i : Int) :
    ∀ c ∈ (toString i).data, c.isWhitespace = false := by
  cases i with
  | ofNat n =>
    have hdata : (toString (Int.ofNat n)).data = natDigits n := natDigits_repr n
    rw [hdata]
    intro c hc
    exact isDigit_not_ws c ((natDigits_spec n).2.2 c hc)
  | negSucc m =>
    have hdata : (toString (Int.negSucc m)).data = '-' :: natDigits (m + 1) := by
      show ("-" ++ Nat.repr (m + 1)).data = _
      rw [String.data_append, natDigits_repr]
      rfl
    rw [hdata]
    intro c hc
    rcases List.mem_cons.mp hc with rfl | hmem
    · decide
    · exact isDigit_not_ws c ((natDigits_spec (m + 1)).2.2 c hmem)

lemma int_toString_ne_empty (i : Int) : toString i ≠ "" := by
  intro h
  cases i with
  | ofNat n =>
    have hdata : (toString (Int.ofNat n)).data = natDigits n := natDigits_repr n
    rw [h] at hdata
    exact (natDigits_spec n).2.1 hdata.symm
  | negSucc m =>
    have hdata : (toString (Int.negSucc m)).data = '-' :: natDigits (m + 1) := by
      show ("-" ++ Nat.repr (m + 1)).data = _
      rw [String.data_append, natDigits_repr]
      rfl
    rw [h] at hdata
    exact List.cons_ne_nil _ _ hdata.symm

/-! ## `pysplit` on the line shapes the protocol produces -/

lemma String.mk_data_eq (s : String) : String.mk s.data = s := rfl

lemma str_ne_empty_iff (s : String) : s ≠ "" ↔ s.data ≠ [] := by
  constructor
  · intro h hd
    exact h (String.ext hd)
  · intro h hd
    rw [hd] at h
    exact h rfl

lemma pysplitAux_nil (acc : List Char) :
    pysplitAux acc [] = if acc = [] then [] else [acc.reverse] := by
  simp [pysplitAux]

lemma pysplitAux_token (xs : List Char)
    (hxs : ∀ c ∈ xs, c.isWhitespace = false) :
    ∀ acc ys, pysplitAux acc (xs ++ ys) = pysplitAux (xs.reverse ++ acc) ys := by
  induction xs with
  | nil => intro acc ys; simp
  | cons c rest ih =>
    intro acc ys
    have hc : c.isWhitespace = false := hxs c (List.mem_cons_self c rest)
    rw [List.cons_append]
    simp only [pysplitAux, hc, Bool.false_eq_true, if_false]
    rw [ih (fun d hd => hxs d (List.mem_cons_of_mem c hd)) (c :: acc) ys]
    congr 1
    simp

lemma pysplitAux_ws (c : Char) (hc : c.isWhitespace = true)
    (acc ys : List Char) :
    pysplitAux acc (c :: ys) =
      if acc = [] then pysplitAux [] ys else acc.reverse :: pysplitAux [] ys := by
  simp only [pysplitAux, hc, if_true]

lemma pysplit_label_value (lab v : String) (hlab1 : lab ≠ "")
    (hlab2 : ∀ c ∈ lab.data, c.isWhitespace = false)
    (hv : ∀ c ∈ v.data, c.isWhitespace = false) :
    pysplit (lab ++ " " ++ v ++ "\n") = if v = "" then [lab] else [lab, v] := by
  have hdata : (lab ++ " " ++ v ++ "\n").data
      = lab.data ++ ' ' :: (v.data ++ ['\n']) := by
    simp [String.data_append]
  unfold pysplit
  rw [hdata, pysplitAux_token lab.data hlab2, pysplitAux_ws ' ' (by decide),
    if_neg (by simpa using (str_ne_empty_iff lab).mp hlab1)]
  rw [show (v.data ++ ['\n'] : List Char) = v.data ++ '\n' :: [] from by simp,
    pysplitAux_token v.data hv, pysplitAux_ws '\n' (by decide)]
  by_cases hv0 : v = ""
  · have : v.data = [] := by rw [hv0]
    simp [hv0, this, pysplitAux_nil, String.mk_data_eq]
  · have hvd : v.data ≠ [] := (str_ne_empty_iff v).mp hv0
    rw [if_neg (by simpa using hvd), if_neg hv0]
    simp [pysplitAux_nil, String.mk_data_eq]

lemma pysplit_single_token (a : String) (ha1 : a ≠ "")
    (ha2 : ∀ c ∈ a.data, c.isWhitespace = false) :
    pysplit (a ++ "\n") = [a] := by
  have hdata : (a ++ "\n").data = a.data ++ '\n' :: [] := by
    simp [String.data_append]
  unfold pysplit
  rw [hdata, pysplitAux_token a.data ha2, pysplitAux_ws '\n' (by decide),
    if_neg (by simpa using (str_ne_empty_iff a).mp ha1)]
  simp [pysplitAux_nil, String.mk_data_eq]

lemma pysplit_three_tokens (a b c : String)
    (ha1 : a ≠ "") (ha2 : ∀ ch ∈ a.data, ch.isWhitespace = false)
    (hb1 : b ≠ "") (hb2 : ∀ ch ∈ b.data, ch.isWhitespace = false)
    (hc1 : c ≠ "") (hc2 : ∀ ch ∈ c.data, ch.isWhitespace = false) :
    pysplit (a ++ " " ++ b ++ " " ++ c ++ "\n") = [a, b, c] := by
  have hdata : (a ++ " " ++ b ++ " " ++ c ++ "\n").data
      = a.data ++ ' ' :: (b.data ++ ' ' :: (c.data ++ '\n' :: [])) := by
    simp [String.data_append]
  unfold pysplit
  rw [hdata, pysplitAux_token a.data ha2, pysplitAux_ws ' ' (by decide),
    if_neg (by simpa using (str_ne_empty_iff a).mp ha1),
    pysplitAux_token b.data hb2, pysplitAux_ws ' ' (by decide),
    if_neg (by simpa using (str_ne_empty_iff b).mp hb1),
    pysplitAux_token c.data hc2, pysplitAux_ws '\n' (by decide),
    if_neg (by simpa using (str_ne_empty_iff c).mp hc1)]
  simp [pysplitAux_nil, String.mk_data_eq]

/-! ## `toLines` on serialized messages -/

lemma mk_append_nl (x : String) : String.mk (x.data ++ ['\n']) = x ++ "\n" := by
  apply String.ext
  simp [String.data_append]

lemma str_assoc (a b c : String) : a ++ b ++ c = a ++ (b ++ c) := by
  apply String.ext
  simp [String.data_append]

lemma normalizeNewlines_cons_ne (c : Char) (hc : c ≠ '\r') (l : List Char) :
    normalizeNewlines (c :: l) = c :: normalizeNewlines l := by
  cases l with
  | nil => simp [normalizeNewlines, hc]
  | cons d rest => simp [normalizeNewlines, hc]

lemma normalizeNewlines_crlf (l : List Char) :
    normalizeNewlines ('\r' :: '\n' :: l) = '\n' :: normalizeNewlines l := by
  simp [normalizeNewlines]

lemma normalizeNewlines_append (xs : List Char)
    (hxs : ∀ c ∈ xs, c ≠ '\r') (ys : List Char) :
    normalizeNewlines (xs ++ ys) = xs ++ normalizeNewlines ys := by
  induction xs with
  | nil => simp
  | cons c rest ih =>
    rw [List.cons_append,
      normalizeNewlines_cons_ne c (hxs c (List.mem_cons_self c rest)),
      ih (fun d hd => hxs d (List.mem_cons_of_mem c hd))]
    rfl

lemma splitLinesAux_line (xs : List Char) (hxs : ∀ c ∈ xs, c ≠ '\n') :
    ∀ acc ys, splitLinesAux acc (xs ++ '\n' :: ys) =
      (acc.reverse ++ xs ++ ['\n']) :: splitLinesAux [] ys := by
  induction xs with
  | nil =>
    intro acc ys
    simp [splitLinesAux]
  | cons c rest ih =>
    intro acc ys
    have hc : c ≠ '\n' := hxs c (List.mem_cons_self c rest)
    rw [List.cons_append]
    simp only [splitLinesAux, hc, if_false]
    rw [ih (fun d hd => hxs d (List.mem_cons_of_mem c hd)) (c :: acc) ys]
    congr 1
    simp

lemma toLines_cons (x : String) (hx : ∀ c ∈ x.data, c ≠ '\r' ∧ c ≠ '\n')
    (rest : String) :
    toLines (x ++ ENDL ++ rest) = (x ++ "\n") :: toLines rest := by
  unfold toLines
  have hdata : (x ++ ENDL ++ rest).data
      = x.data ++ '\r' :: '\n' :: rest.data := by
    simp [String.data_append, ENDL]
  rw [hdata, normalizeNewlines_append x.data (fun c hc => (hx c hc).1),
    normalizeNewlines_crlf,
    splitLinesAux_line x.data (fun c hc => (hx c hc).2) [] _]
  simp [mk_append_nl]

lemma no_crlf_append {a b : String} (ha : ∀ c ∈ a.data, c ≠ '\r' ∧ c ≠ '\n')
    (hb : ∀ c ∈ b.data, c ≠ '\r' ∧ c ≠ '\n') :
    ∀ c ∈ (a ++ b).data, c ≠ '\r' ∧ c ≠ '\n' := by
  intro c hc
  rw [String.data_append] at hc
  rcases List.mem_append.mp hc with h | h
  · exact ha c h
  · exact hb c h

lemma noWS_no_crlf {s : String} (h : ∀ c ∈ s.data, c.isWhitespace = false) :
    ∀ c ∈ s.data, c ≠ '\r' ∧ c ≠ '\n' := by
  intro c hc
  have hcw := h c hc
  constructor <;> rintro rfl <;> simp [Char.isWhitespace] at hcw

lemma toLines_ENDL : toLines ENDL = ["\n"] := by decide

lemma toLines_serialize_getWorkRequest :
    toLines (Message.serialize .getWorkRequest) = ["ReqW\n", "\n"] := by decide

lemma toLines_serialize_workCompleteResponse :
    toLines (Message.serialize .workCompleteResponse) = ["AckW\n", "\n"] := by
  decide

lemma toLines_serialize_getWorkResponse (h p : String)
    (hh : ∀ c ∈ h.data, c.isWhitespace = false)
    (hp : ∀ c ∈ p.data, c.isWhitespace = false) :
    toLines (Message.serialize (.getWorkResponse h p)) =
      ["AsgW\n", "Host:" ++ " " ++ h ++ "\n", "Path:" ++ " " ++ p ++ "\n",
        "\n"] := by
  have heq : Message.serialize (.getWorkResponse h p) =
      "AsgW" ++ ENDL ++
        (("Host: " ++ h) ++ ENDL ++ (("Path: " ++ p) ++ ENDL ++ ENDL)) := by
    show "AsgW" ++ ENDL ++ "Host: " ++ h ++ ENDL ++ "Path: " ++ p ++ ENDL ++
      ENDL = _
    simp [str_assoc]
  rw [heq,
    toLines_cons "AsgW" (by decide),
    toLines_cons ("Host: " ++ h)
      (no_crlf_append (by decide) (noWS_no_crlf hh)),
    toLines_cons ("Path: " ++ p)
      (no_crlf_append (by decide) (noWS_no_crlf hp)),
    toLines_ENDL]
  simp [String.ext_iff, String.data_append]

lemma toLines_serialize_httpGetRequest (h p : String)
    (hh : ∀ c ∈ h.data, c.isWhitespace = false)
    (hp : ∀ c ∈ p.data, c.isWhitespace = false) :
    toLines (Message.serialize (.httpGetRequest h p)) =
      ["GET" ++ " " ++ p ++ " " ++ "HTTP/1.1" ++ "\n",
        "Host:" ++ " " ++ h ++ "\n", "\n"] := by
  have heq : Message.serialize (.httpGetRequest h p) =
      ("GET " ++ p ++ " HTTP/1.1") ++ ENDL ++
        (("Host: " ++ h) ++ ENDL ++ ENDL) := by
    show "GET " ++ p ++ " HTTP/1.1" ++ ENDL ++ "Host: " ++ h ++ ENDL ++
      ENDL = _
    simp [str_assoc]
  rw [heq,
    toLines_cons ("GET " ++ p ++ " HTTP/1.1")
      (no_crlf_append (no_crlf_append (by decide) (noWS_no_crlf hp))
        (by decide)),
    toLines_cons ("Host: " ++ h)
      (no_crlf_append (by decide) (noWS_no_crlf hh)),
    toLines_ENDL]
  simp [String.ext_iff, String.data_append]

lemma toLines_wordlines (wc : List (String × Int))
    (hwc : ∀ e ∈ wc, ∀ c ∈ e.1.data, c.isWhitespace = false) :
    toLines (concatLines (wc.map fun e => e.1 ++ " " ++ toString e.2 ++ ENDL)
        ++ ENDL) =
      (wc.map fun e => e.1 ++ " " ++ toString e.2 ++ "\n") ++ ["\n"] := by
  induction wc with
  | nil =>
    show toLines ("" ++ ENDL) = ["\n"]
    rw [show ("" ++ ENDL : String) = ENDL from by apply String.ext; simp,
      toLines_ENDL]
  | cons e rest ih =>
    show toLines ((e.1 ++ " " ++ toString e.2 ++ ENDL) ++
      concatLines (rest.map fun e => e.1 ++ " " ++ toString e.2 ++ ENDL)
        ++ ENDL) = _
    have hassoc : (e.1 ++ " " ++ toString e.2 ++ ENDL) ++
        concatLines (rest.map fun e => e.1 ++ " " ++ toString e.2 ++ ENDL)
          ++ ENDL =
        (e.1 ++ " " ++ toString e.2) ++ ENDL ++
        (concatLines (rest.map fun e => e.1 ++ " " ++ toString e.2 ++ ENDL)
          ++ ENDL) := by
      simp [str_assoc]
    rw [hassoc,
      toLines_cons (e.1 ++ " " ++ toString e.2)
        (no_crlf_append
          (no_crlf_append (noWS_no_crlf (hwc e (List.mem_cons_self e rest)))
            (by decide))
          (noWS_no_crlf (int_toString_no_ws e.2))),
      ih (fun d hd => hwc d (List.mem_cons_of_mem e hd))]
    simp

lemma toLines_serialize_workCompleteRequest (p : String)
    (wc : List (String × Int))
    (hp : ∀ c ∈ p.data, c.isWhitespace = false)
    (hwc : ∀ e ∈ wc, ∀ c ∈ e.1.data, c.isWhitespace = false) :
    toLines (Message.serialize (.workCompleteRequest p wc)) =
      "SubW\n" :: ("Path:" ++ " " ++ p ++ "\n") :: ("Word-Counts:" ++ "\n") ::
        ((wc.map fun e => e.1 ++ " " ++ toString e.2 ++ "\n") ++ ["\n"]) := by
  have heq : Message.serialize (.workCompleteRequest p wc) =
      "SubW" ++ ENDL ++
        (("Path: " ++ p) ++ ENDL ++
          ("Word-Counts:" ++ ENDL ++
            (concatLines (wc.map fun e => e.1 ++ " " ++ toString e.2 ++ ENDL)
              ++ ENDL))) := by
    show "SubW" ++ ENDL ++ "Path: " ++ p ++ ENDL ++ "Word-Counts:" ++ ENDL ++
      concatLines (wc.map fun e => e.1 ++ " " ++ toString e.2 ++ ENDL) ++
      ENDL = _
    simp [str_assoc]
  rw [heq,
    toLines_cons "SubW" (by decide),
    toLines_cons ("Path: " ++ p)
      (no_crlf_append (by decide) (noWS_no_crlf hp)),
    toLines_cons "Word-Counts:" (by decide),
    toLines_wordlines wc hwc]
  simp [String.ext_iff, String.data_append]

/-! ## Deserializing the serialized line lists -/

lemma isPrefixOf_append (l r : List Char) : l.isPrefixOf (l ++ r) = true := by
  induction l with
  | nil => cases r <;> rfl
  | cons c cs ih => simp [List.isPrefixOf, ih]

lemma pyStartsWith_of_data (s pre : String) (t : List Char)
    (h : s.data = pre.data ++ t) : pyStartsWith s pre = true := by
  unfold pyStartsWith
  rw [h]
  exact isPrefixOf_append _ _

lemma dictInsert_not_mem (d : List (String × Int)) (k : String) (v : Int)
    (h : k ∉ d.map Prod.fst) : dictInsert d k v = d ++ [(k, v)] := by
  induction d with
  | nil => rfl
  | cons e rest ih =>
    simp only [List.map_cons, List.mem_cons] at h
    push_neg at h
    obtain ⟨h1, h2⟩ := h
    rw [dictInsert, if_neg (fun heq => h1 heq.symm), ih h2]
    rfl

lemma parseWordCounts_wordlines (wc : List (String × Int))
    (hwc : ∀ e ∈ wc, (∀ c ∈ e.1.data, c.isWhitespace = false) ∧ e.1 ≠ "")
    (hnodup : (wc.map Prod.fst).Nodup) :
    ∀ acc, (∀ e ∈ wc, e.1 ∉ acc.map Prod.fst) →
      parseWordCounts
          ((wc.map fun e => e.1 ++ " " ++ toString e.2 ++ "\n") ++ ["\n"])
          acc =
        some (acc ++ wc) := by
  induction wc with
  | nil =>
    intro acc _
    simp [parseWordCounts, show pysplit "\n" = [] from by decide]
  | cons e rest ih =>
    intro acc hd
    obtain ⟨hws, hne⟩ := hwc e (List.mem_cons_self e rest)
    simp only [List.map_cons, List.cons_append, parseWordCounts]
    rw [pysplit_label_value e.1 (toString e.2) hne hws
        (int_toString_no_ws e.2),
      if_neg (int_toString_ne_empty e.2)]
    simp only [pyInt?_toString_int e.2]
    rw [dictInsert_not_mem acc e.1 e.2 (hd e (List.mem_cons_self e rest))]
    simp only [List.map_cons, List.nodup_cons] at hnodup
    simp only [List.append_eq]
    rw [ih (fun d hd' => hwc d (List.mem_cons_of_mem e hd')) hnodup.2
      (acc ++ [(e.1, e.2)])]
    · simp
    · intro d hd'
      rw [List.map_append]
      simp only [List.mem_append]
      push_neg
      refine ⟨fun hmem => (hd d (List.mem_cons_of_mem e hd')) hmem, ?_⟩
      simp only [List.map_cons, List.map_nil, List.mem_singleton]
      intro heq
      exact hnodup.1 (heq ▸ List.mem_map_of_mem Prod.fst hd')

lemma parse_serialize_getWorkRequest :
    Message.deserialize (toLines (Message.serialize .getWorkRequest)) =
      some .getWorkRequest := by decide

lemma parse_serialize_workCompleteResponse :
    Message.deserialize (toLines (Message.serialize .workCompleteResponse)) =
      some .workCompleteResponse := by decide


lemma deserialize_get (fl : String) (hfl : pyStartsWith fl "GET " = true)
    (ls : List String) :
    Message.deserialize (fl :: ls) = HTTPGetRequest.parse fl ls := by
  unfold Message.deserialize
  simp only [readline]
  rw [if_pos hfl]

lemma deserialize_asgw (ls : List String) :
    Message.deserialize ("AsgW\n" :: ls) = GetWorkResponse.parse "AsgW\n" ls := by
  unfold Message.deserialize
  simp only [readline]
  rw [if_neg (by decide), if_neg (by decide), if_pos (by decide)]

lemma deserialize_subw (ls : List String) :
    Message.deserialize ("SubW\n" :: ls) =
      WorkCompleteRequest.parse "SubW\n" ls := by
  unfold Message.deserialize
  simp only [readline]
  rw [if_neg (by decide), if_neg (by decide), if_neg (by decide),
    if_pos (by decide)]

lemma getWorkResponse_parse_lines (h p : String)
    (hh : ∀ c ∈ h.data, c.isWhitespace = false)
    (hp : ∀ c ∈ p.data, c.isWhitespace = false) (tl : List String) :
    GetWorkResponse.parse "AsgW\n"
        (("Host:" ++ " " ++ h ++ "\n") :: ("Path:" ++ " " ++ p ++ "\n") :: tl)
      = some (.getWorkResponse h p) := by
  unfold GetWorkResponse.parse
  rw [if_neg (by decide)]
  simp only [readline]
  rw [pysplit_label_value "Host:" h (by decide) (by decide) hh,
    pysplit_label_value "Path:" p (by decide) (by decide) hp]
  by_cases hh0 : h = "" <;> by_cases hp0 : p = "" <;> simp [hh0, hp0]

lemma parse_serialize_getWorkResponse (h p : String)
    (hh : ∀ c ∈ h.data, c.isWhitespace = false)
    (hp : ∀ c ∈ p.data, c.isWhitespace = false) :
    Message.deserialize (toLines (Message.serialize (.getWorkResponse h p))) =
      some (.getWorkResponse h p) := by
  rw [toLines_serialize_getWorkResponse h p hh hp, deserialize_asgw,
    getWorkResponse_parse_lines h p hh hp]

lemma parse_serialize_httpGetRequest (h p : String)
    (hh : ∀ c ∈ h.data, c.isWhitespace = false)
    (hp : ∀ c ∈ p.data, c.isWhitespace = false)
    (hh0 : h ≠ "") (hp0 : p ≠ "") :
    Message.deserialize (toLines (Message.serialize (.httpGetRequest h p))) =
      some (.httpGetRequest h p) := by
  rw [toLines_serialize_httpGetRequest h p hh hp]
  have hstart : pyStartsWith ("GET" ++ " " ++ p ++ " " ++ "HTTP/1.1" ++ "\n")
      "GET " = true := by
    apply pyStartsWith_of_data _ _
      (p.data ++ ' ' :: ("HTTP/1.1".data ++ ['\n']))
    simp [String.data_append]
  rw [deserialize_get _ hstart]
  unfold HTTPGetRequest.parse
  rw [if_neg (by rw [hstart]; intro hcon; cases hcon)]
  rw [pysplit_three_tokens "GET" p "HTTP/1.1" (by decide) (by decide) hp0 hp
    (by decide) (by decide)]
  simp only [readline]
  rw [pysplit_label_value "Host:" h (by decide) (by decide) hh, if_neg hh0]
  simp

lemma parse_serialize_workCompleteRequest (p : String)
    (wc : List (String × Int))
    (hp : ∀ c ∈ p.data, c.isWhitespace = false) (hp0 : p ≠ "")
    (hwc : ∀ e ∈ wc, (∀ c ∈ e.1.data, c.isWhitespace = false) ∧ e.1 ≠ "")
    (hnodup : (wc.map Prod.fst).Nodup) :
    Message.deserialize
        (toLines (Message.serialize (.workCompleteRequest p wc))) =
      some (.workCompleteRequest p wc) := by
  rw [toLines_serialize_workCompleteRequest p wc hp
    (fun e he => (hwc e he).1)]
  rw [deserialize_subw]
  unfold WorkCompleteRequest.parse
  rw [if_neg (by decide)]
  simp only [readline]
  rw [pysplit_label_value "Path:" p (by decide) (by decide) hp, if_neg hp0]
  rw [show pysplit ("Word-Counts:" ++ "\n") = ["Word-Counts:"] from
    pysplit_single_token "Word-Counts:" (by decide) (by decide)]
  rw [parseWordCounts_wordlines wc hwc hnodup [] (by simp)]
  simp

/-! ## C3: the round-trip law -/

/-- C3 counterexample: an `HTTPGetRequest` whose host and path are both the
empty string is constructible, but decoding its encoding fails (the `GET`
request line then has two tokens instead of three), so `decode(encode(m))`
is not structurally equal to `m` for every constructible message. -/
theorem roundtrip_fails_empty_fetch :
    Message.deserialize
        (toLines (Message.serialize (.httpGetRequest "" ""))) = none := by
  decide

/-- C3 amended: for every message whose string fields contain no whitespace
and whose fields the decoders cannot read back empty are non-empty
(`FetchRequest` host and path, `ResultReport` path and words) and whose
report words are pairwise distinct, decoding the encoding returns the
structurally identical message.  This includes the all-empty
`WorkAssignment` sentinel and a `ResultReport` with no word counts. -/
theorem roundtrip_goodMsg (m : Message) (hm : goodMsg m) :
    Message.deserialize (toLines (Message.serialize m)) = some m := by
  cases m with
  | httpGetRequest h p =>
    obtain ⟨hh, hp, hh0, hp0⟩ := hm
    exact parse_serialize_httpGetRequest h p hh hp hh0 hp0
  | getWorkRequest => exact parse_serialize_getWorkRequest
  | getWorkResponse h p =>
    obtain ⟨hh, hp⟩ := hm
    exact parse_serialize_getWorkResponse h p hh hp
  | workCompleteRequest p wc =>
    obtain ⟨hp, hp0, hwc, hnodup⟩ := hm
    exact parse_serialize_workCompleteRequest p wc hp hp0
      (fun e he => ⟨(hwc e he).1, (hwc e he).2⟩) hnodup
  | workCompleteResponse => exact parse_serialize_workCompleteResponse

/-- Witness for amended C3: the "no work left" `WorkAssignment` sentinel
round-trips. -/
theorem roundtrip_goodMsg_witness :
    Message.deserialize
        (toLines (Message.serialize (Message.getWorkResponse "" ""))) =
      some (Message.getWorkResponse "" "") :=
  roundtrip_goodMsg (.getWorkResponse "" "")
    ⟨by unfold noWS; decide, by unfold noWS; decide⟩

/-! ## C7: per-line field validation in the decoders -/

/-- C7 counterexample: the `AsgW` decoder does not reject a `Host:` body line
with three tokens — `Host: a extra` is accepted, with `a` taken as the value
and the extra token ignored — so a wrong token count does not make decode
fail. -/
theorem asgw_extra_tokens_accepted :
    Message.deserialize (toLines "AsgW\r\nHost: a extra\r\nPath: p\r\n\r\n") =
      some (.getWorkResponse "a" "p") := by decide

/-- C7 amended: every decoder validates its field-name labels — the `AsgW`
decoder checks `Host:` on its first and `Path:` on its second body line, the
`GET` decoder checks `Host:`, and the `SubW` decoder checks `Path:` and
`Word-Counts:` — and the `HTTPGetRequest` and `WorkCompleteRequest` decoders
also reject every field line whose whitespace-token count is wrong (three
tokens on the request line, two on the `Host:`/`Path:` lines, one on the
`Word-Counts:` line, two on each non-blank word-count line); but the
`GetWorkResponse` (`AsgW`) decoder only rejects an empty line or a wrong
label — it accepts extra tokens, taking the second token as the value, as
the final conjunct shows on `Host: a extra`. -/
theorem decoder_field_validation :
    (∀ fl l ls, (pysplit l).head? ≠ some "Host:" →
      GetWorkResponse.parse fl (l :: ls) = none) ∧
    (∀ fl l1 l2 ls, (pysplit l2).head? ≠ some "Path:" →
      GetWorkResponse.parse fl (l1 :: l2 :: ls) = none) ∧
    (∀ fl ls, pyStartsWith fl "GET " = true → (pysplit fl).length ≠ 3 →
      HTTPGetRequest.parse fl ls = none) ∧
    (∀ fl l ls, (pysplit l).length ≠ 2 →
      HTTPGetRequest.parse fl (l :: ls) = none) ∧
    (∀ fl l ls, (pysplit l).head? ≠ some "Host:" →
      HTTPGetRequest.parse fl (l :: ls) = none) ∧
    (∀ fl l ls, (pysplit l).length ≠ 2 →
      WorkCompleteRequest.parse fl (l :: ls) = none) ∧
    (∀ fl l ls, (pysplit l).head? ≠ some "Path:" →
      WorkCompleteRequest.parse fl (l :: ls) = none) ∧
    (∀ fl l1 l2 ls, (pysplit l2).length ≠ 1 →
      WorkCompleteRequest.parse fl (l1 :: l2 :: ls) = none) ∧
    (∀ fl l1 l2 ls, (pysplit l2).head? ≠ some "Word-Counts:" →
      WorkCompleteRequest.parse fl (l1 :: l2 :: ls) = none) ∧
    (∀ p l ls, (∀ c ∈ p.data, c.isWhitespace = false) → p ≠ "" →
      (pysplit l).length ≠ 0 → (pysplit l).length ≠ 2 →
      WorkCompleteRequest.parse "SubW\n"
          (("Path:" ++ " " ++ p ++ "\n") :: ("Word-Counts:" ++ "\n") ::
            l :: ls) = none) ∧
    GetWorkResponse.parse "AsgW\n" ["Host: a extra\n", "Path: p\n", "\n"] =
      some (.getWorkResponse "a" "p") := by
  refine ⟨?_, ?_, ?_, ?_, ?_, ?_, ?_, ?_, ?_, ?_, by decide⟩
  · intro fl l ls hhead
    unfold GetWorkResponse.parse
    split_ifs with hstart
    · rfl
    · simp only [readline]
      cases hsp : pysplit l with
      | nil => simp [hsp]
      | cons n vs =>
        have hn : n ≠ "Host:" := by
          intro heq
          rw [hsp, heq] at hhead
          exact hhead rfl
        simp [hsp, hn]
  · intro fl l1 l2 ls hhead
    unfold GetWorkResponse.parse
    split_ifs with hstart
    · rfl
    · simp only [readline]
      rcases hsp1 : pysplit l1 with _ | ⟨n1, vs1⟩
      · simp [hsp1]
      · rcases hsp2 : pysplit l2 with _ | ⟨n2, vs2⟩
        · simp [hsp1, hsp2]
        · have hn2 : n2 ≠ "Path:" := by
            intro heq
            rw [hsp2, heq] at hhead
            exact hhead rfl
          simp [hsp1, hsp2, hn2]
  · intro fl ls hstart hlen
    unfold HTTPGetRequest.parse
    rw [if_neg (by rw [hstart]; intro hcon; cases hcon)]
    rcases hsp : pysplit fl with _ | ⟨a, _ | ⟨b, _ | ⟨c, _ | ⟨d, rest⟩⟩⟩⟩
    · simp [hsp]
    · simp [hsp]
    · simp [hsp]
    · exact absurd (by rw [hsp]; rfl : (pysplit fl).length = 3) hlen
    · simp [hsp]
  · intro fl l ls hlen
    unfold HTTPGetRequest.parse
    split_ifs with hstart
    · rfl
    · split
      · simp only [readline]
        split
        · next name value heq =>
          exact absurd (by rw [heq]; rfl : (pysplit l).length = 2) hlen
        · rfl
      · rfl
  · intro fl l ls hhead
    unfold HTTPGetRequest.parse
    split_ifs with hstart
    · rfl
    · rcases hsp : pysplit fl with _ | ⟨a, _ | ⟨b, _ | ⟨c, _ | ⟨d, rest⟩⟩⟩⟩
      · simp [hsp]
      · simp [hsp]
      · simp [hsp]
      · simp only [hsp, readline]
        rcases hsp2 : pysplit l with _ | ⟨n, _ | ⟨v, _ | ⟨w, rest2⟩⟩⟩
        · simp [hsp2]
        · simp [hsp2]
        · have hn : n ≠ "Host:" := by
            intro heq
            rw [hsp2, heq] at hhead
            exact hhead rfl
          simp [hsp2, hn]
        · simp [hsp2]
      · simp [hsp]
  · intro fl l ls hlen
    unfold WorkCompleteRequest.parse
    split_ifs with hstart
    · rfl
    · simp only [readline]
      split
      · next name path heq =>
        exact absurd (by rw [heq]; rfl : (pysplit l).length = 2) hlen
      · rfl
  · intro fl l ls hhead
    unfold WorkCompleteRequest.parse
    split_ifs with hstart
    · rfl
    · simp only [readline]
      rcases hsp : pysplit l with _ | ⟨n, _ | ⟨v, _ | ⟨w, rest2⟩⟩⟩
      · simp [hsp]
      · simp [hsp]
      · have hn : n ≠ "Path:" := by
          intro heq
          rw [hsp, heq] at hhead
          exact hhead rfl
        simp [hsp, hn]
      · simp [hsp]
  · intro fl l1 l2 ls hlen
    unfold WorkCompleteRequest.parse
    split_ifs with hstart
    · rfl
    · simp only [readline]
      rcases hsp1 : pysplit l1 with _ | ⟨n, _ | ⟨v, _ | ⟨w, rest2⟩⟩⟩
      · simp [hsp1]
      · simp [hsp1]
      · rcases hsp2 : pysplit l2 with _ | ⟨m, vs⟩
        · simp [hsp1, hsp2]
        · rcases vs with _ | ⟨v2, vs2⟩
          · exact absurd (by rw [hsp2]; rfl : (pysplit l2).length = 1) hlen
          · simp [hsp1, hsp2]
      · simp [hsp1]
  · intro fl l1 l2 ls hhead
    unfold WorkCompleteRequest.parse
    split_ifs with hstart
    · rfl
    · simp only [readline]
      rcases hsp1 : pysplit l1 with _ | ⟨n, _ | ⟨v, _ | ⟨w, rest2⟩⟩⟩
      · simp [hsp1]
      · simp [hsp1]
      · rcases hsp2 : pysplit l2 with _ | ⟨m, _ | ⟨m2, vs2⟩⟩
        · simp [hsp1, hsp2]
        · have hm : m ≠ "Word-Counts:" := by
            intro heq
            rw [hsp2, heq] at hhead
            exact hhead rfl
          simp [hsp1, hsp2, hm]
        · simp [hsp1, hsp2]
      · simp [hsp1]
  · intro p l ls hpws hp0 hlen0 hlen2
    have hnone : parseWordCounts (l :: ls) [] = none := by
      simp only [parseWordCounts]
      rcases hsp : pysplit l with _ | ⟨w, _ | ⟨c, _ | ⟨d, rest2⟩⟩⟩
      · exact absurd (by rw [hsp]; rfl : (pysplit l).length = 0) hlen0
      · simp [hsp]
      · exact absurd (by rw [hsp]; rfl : (pysplit l).length = 2) hlen2
      · simp [hsp]
    unfold WorkCompleteRequest.parse
    rw [if_neg (by decide)]
    simp only [readline]
    rw [pysplit_label_value "Path:" p (by decide) (by decide) hpws,
      if_neg hp0]
    rw [show pysplit ("Word-Counts:" ++ "\n") = ["Word-Counts:"] from
      pysplit_single_token "Word-Counts:" (by decide) (by decide)]
    simp [hnone]

/-- Witness for amended C7: a wrong label on the first `AsgW` body line makes
decode fail. -/
theorem decoder_field_validation_witness :
    GetWorkResponse.parse "AsgW\n" ["Foo: x\n"] = none :=
  decoder_field_validation.1 "AsgW\n" "Foo: x\n" [] (by decide)

/-! ## C4: the serve loop on malformed or irrelevant traffic -/

/-- C4 counterexample: a connection whose bytes fail to decode makes
`Message.deserialize` raise `ValueError`, which the serve loop's
`except TimeoutError` does not catch — the loop terminates abnormally
(`crashed`) rather than dropping the connection and continuing. -/
theorem malformed_connection_crashes :
    handle_connection pick₀ WorkTracker.init (toLines "bogus msg") =
      .crashed WorkTracker.init := by decide

/-- C4 amended: a successfully decoded message that is neither a
`WorkRequest` nor a `ResultReport` is dropped without a response and the
loop continues, but a decode failure escapes the loop as an uncaught
`ValueError` and terminates serving. -/
theorem serve_loop_malformed_behavior (pick : Finset String → String)
    (s : WorkTracker) (lines : List String) :
    (Message.deserialize lines = none →
      handle_connection pick s lines = .crashed s) ∧
    (∀ m, Message.deserialize lines = some m → isDispatched m = false →
      handle_connection pick s lines = .dropped s) := by
  constructor
  · intro h
    simp [handle_connection, h]
  · intro m hm hdisp
    cases m with
    | getWorkRequest => simp [isDispatched] at hdisp
    | workCompleteRequest p wc => simp [isDispatched] at hdisp
    | httpGetRequest h p => simp [handle_connection, hm]
    | getWorkResponse h p => simp [handle_connection, hm]
    | workCompleteResponse => simp [handle_connection, hm]

/-- Witness for amended C4: an `AckW` message reaching the coordinator is
decoded and dropped without a response. -/
theorem serve_loop_malformed_behavior_witness :
    handle_connection pick₀ (mkWorkTracker []) ["AckW\n", "\n"] =
      .dropped (mkWorkTracker []) :=
  (serve_loop_malformed_behavior pick₀ (mkWorkTracker [])
    ["AckW\n", "\n"]).2 .workCompleteResponse (by decide) (by decide)

/-! ## C8: the exact no-work response bytes -/

/-- C8: when the tracker reports all work done, the serve loop's response to
the wire bytes of a `WorkRequest` is exactly the `WorkAssignment` with both
fields empty: `"AsgW\r\nHost: \r\nPath: \r\n\r\n"`. -/
theorem work_request_when_done (pick : Finset String → String)
    (s : WorkTracker) (h : is_all_work_done s = true) :
    handle_connection pick s (toLines "ReqW\r\n\r\n") =
      .reply "AsgW\r\nHost: \r\nPath: \r\n\r\n" s := by
  have hdes : Message.deserialize (toLines "ReqW\r\n\r\n") =
      some .getWorkRequest := by decide
  simp [handle_connection, hdes, h,
    show Message.serialize (.getWorkResponse "" "") =
      "AsgW\r\nHost: \r\nPath: \r\n\r\n" from by decide]

/-- Witness for C8 on a tracker whose (empty) job list is trivially done. -/
theorem work_request_when_done_witness :
    handle_connection pick₀ (mkWorkTracker []) (toLines "ReqW\r\n\r\n") =
      .reply "AsgW\r\nHost: \r\nPath: \r\n\r\n" (mkWorkTracker []) :=
  work_request_when_done pick₀ (mkWorkTracker []) (by decide)

/-! ## C9: the volunteer's stopping condition -/

/-- C9 counterexample: an assignment with a non-empty host but an empty path
stops the volunteer's loop (`work.host == '' or work.path == ''`), whereas
the claim says any assignment with a non-empty host or path proceeds to
fetch, analyze and report. -/
theorem volunteer_stops_on_empty_path_nonempty_host :
    keep_working_step (some (.getWorkResponse "h" "")) true = .stopAtRequest ∧
    ("h" : String) ≠ "" := by
  constructor
  · rfl
  · decide

/-- C9 amended: the loop stops when the work request's connection fails,
when the response is not a `GetWorkResponse`, or when the assignment's host
**or** path is empty; only an assignment with both fields non-empty proceeds
to the fetch-analyze-report step, after which the loop stops exactly when
the report's connection fails. -/
theorem volunteer_loop_decision (work : Option Message) (rok : Bool) :
    (work = none → keep_working_step work rok = .stopAtRequest) ∧
    (∀ m, work = some m → (∀ h p, m ≠ .getWorkResponse h p) →
      keep_working_step work rok = .stopAtRequest) ∧
    (∀ h p, work = some (.getWorkResponse h p) → (h = "" ∨ p = "") →
      keep_working_step work rok = .stopAtRequest) ∧
    (∀ h p, work = some (.getWorkResponse h p) → h ≠ "" → p ≠ "" →
      keep_working_step work rok =
        if rok then .continueLoop h p else .stopAfterReport h p) := by
  refine ⟨?_, ?_, ?_, ?_⟩
  · intro h
    simp [keep_working_step, h]
  · intro m hm hne
    rw [hm]
    cases m with
    | getWorkResponse h p => exact absurd rfl (hne h p)
    | httpGetRequest h p => simp [keep_working_step]
    | getWorkRequest => simp [keep_working_step]
    | workCompleteRequest p wc => simp [keep_working_step]
    | workCompleteResponse => simp [keep_working_step]
  · intro h p hm hor
    rw [hm]
    simp [keep_working_step, hor]
  · intro h p hm hh hp
    rw [hm]
    simp [keep_working_step, hh, hp]

/-- Witness for amended C9: a fully non-empty assignment with a successful
report continues the loop. -/
theorem volunteer_loop_decision_witness :
    keep_working_step (some (.getWorkResponse "h" "p")) true =
      if true then LoopDecision.continueLoop "h" "p"
      else LoopDecision.stopAfterReport "h" "p" :=
  (volunteer_loop_decision (some (.getWorkResponse "h" "p")) true).2.2.2
    "h" "p" rfl (by decide) (by decide)
